import Mathlib

/-!
Verification development for `joinTMX.py`: a script that merges several
TMX tile maps (grids of integer tile references, a tileset table mapping a
tileset path to its first gid, and free-form objects) into one big map.

The embedding below is a shallow model of the source:
* numpy 2-D arrays become total functions `Nat → Nat → Int` (row, column);
  slice assignment, negation, `numpy.absolute` and the masked assignment
  of `BigMap.reMap` become pointwise operations;
* Python dictionaries become association lists with dict-style update
  (replace the value when the key is present, append otherwise); iteration
  order over a dict is the list order of the association list;
* the firstgid values that the script stores as strings (`str(...)` /
  `int(...)` round trips) are kept as `Int` directly;
* `BigMap.putMap` mutates the incoming small map's layer dictionary in
  place (it negates and remaps the grids); the model `putMapFull` returns
  both the updated big map and the updated small map to make that mutation
  observable.
-/

/-- Maximum number of tiles per tileset (`MAX_TILES = 512` in the source). -/
def MAX_TILES : Int := 512

/-- A layer grid: a 2-D array of integer tile references, indexed (row, column). -/
def Grid : Type := Nat → Nat → Int

/-- Dictionary lookup on an association list (Python `d[k]` / `d.get(k)`). -/
def lookup {α : Type} (d : List (String × α)) (k : String) : Option α :=
  (d.find? (fun p => p.1 = k)).map (fun p => p.2)

/-- Dictionary membership test (Python `k in d.keys()`). -/
def hasKey {α : Type} (d : List (String × α)) (k : String) : Bool :=
  d.any (fun p => p.1 = k)

/-- Dictionary assignment `d[k] = v`: replace the value when the key is
present, append the pair otherwise. -/
def dictInsert {α : Type} (d : List (String × α)) (k : String) (v : α) :
    List (String × α) :=
  if hasKey d k then d.map (fun p => if p.1 = k then (k, v) else p)
  else d ++ [(k, v)]

/-- Lookup with a default value. -/
def lookupD {α : Type} (d : List (String × α)) (k : String) (dflt : α) : α :=
  (lookup d k).getD dflt

/-- The keys of a dictionary, in iteration order. -/
def keys {α : Type} (d : List (String × α)) : List String :=
  d.map (fun p => p.1)

/-- An object declaration: an ElementTree element, modelled as its
attribute dictionary (free-form string-valued attributes). -/
structure Obj where
  attrib : List (String × String)
deriving DecidableEq

/-- Read an attribute of an object (`obj.get(k)` / `obj.attrib[k]`). -/
def objGet (o : Obj) (k : String) : Option String :=
  lookup o.attrib k

/-- Set an attribute of an object (`obj.attrib[k] = v`). -/
def objSet (o : Obj) (k v : String) : Obj :=
  { attrib := dictInsert o.attrib k v }

/-- A parsed small map (class `ParseMap`): placement coordinates in tile
units, declared dimensions, the layer dictionary, the tileset dictionary
`{path : firstgid}` and the object list. -/
structure SmallMap where
  x : Nat
  y : Nat
  width : Nat
  height : Nat
  layers : List (String × Grid)
  tileSets : List (String × Int)
  objects : List Obj

/-- The big composite map (class `BigMap`). -/
structure BigMap where
  width : Nat
  height : Nat
  name : String
  layers : List (String × Grid)
  objects : List Obj
  tileSets : List (String × Int)

/-- The all-zero grid (`numpy.zeros`). -/
def zerosGrid : Grid := fun _ _ => 0

/-- Pointwise negation of a grid (`-array`). -/
def negGrid (g : Grid) : Grid := fun r c => -(g r c)

/-- Constructor `BigMap.__init__`: empty layer/tileset/object containers except for a
pre-seeded "Collision" layer filled with 2. -/
def mkBigMap (width height : Nat) (name : String) : BigMap :=
  { width := width
    height := height
    name := name
    layers := [("Collision", fun _ _ => (2 : Int))]
    objects := []
    tileSets := [] }

/-- Masked assignment `outArray[inArray == oldVal] = newVal`. -/
def maskedSet (inA outA : Grid) (oldVal newVal : Int) : Grid :=
  fun r c => if inA r c = oldVal then newVal else outA r c

/-- Method `BigMap.reMap`: build the rule `{-(iVal+i) : fVal+i for i in range(n)}`
and apply each masked assignment to a copy of the input array.  All masks
are computed against the unchanged input array, so iteration order of the
rule dictionary is irrelevant; a run over `range n` is one faithful order.
`range` of a non-positive integer is empty, hence `n.toNat`. -/
def reMap (inArray : Grid) (iVal fVal : Int) (n : Int) : Grid :=
  (List.range n.toNat).foldl
    (fun outArray i =>
      maskedSet inArray outArray (-(iVal + (i : Int))) (fVal + (i : Int)))
    inArray

/-- Insertion into a sorted list of integers. -/
def insertSorted (a : Int) : List Int → List Int
  | [] => [a]
  | b :: bs => if a ≤ b then a :: b :: bs else b :: insertSorted a bs

/-- Python `list.sort()` on integers (insertion sort). -/
def sortInts (l : List Int) : List Int :=
  l.foldr insertSorted []

/-- Python `list.index(a)`: index of the first occurrence (0 when absent;
the source only calls it on present values). -/
def listIndex (a : Int) : List Int → Nat
  | [] => 0
  | b :: bs => if b = a then 0 else listIndex a bs + 1

/-- Python `str.endswith(suffix)`, computed on the character lists (the
library `String.endsWith` does not evaluate inside the kernel). -/
def strEndsWith (s suffix : String) : Bool :=
  suffix.data.isSuffixOf s.data

/-- Maximum `max` of the firstgid values of a tileset dictionary, `none` when the
dictionary is empty (the source guards with `if self.tileSets.values():`). -/
def valuesMax (ts : List (String × Int)) : Option Int :=
  match ts.map (fun p => p.2) with
  | [] => none
  | v :: vs => some (vs.foldl max v)

/-- One iteration of the `for tileSet in sMap.tileSets:` loop of
`BigMap.putMap`.  The loop state is the pair (small map's layer
dictionary, big map's tileset dictionary); `smallGID` is the sorted list
of the small map's firstgids and `smallTileSets` the small map's tileset
dictionary, both fixed before the loop. -/
def putTileSet (smallGID : List Int) (smallTileSets : List (String × Int))
    (st : List (String × Grid) × List (String × Int)) (tileSet : String) :
    List (String × Grid) × List (String × Int) :=
  let smallLayers := st.1
  let bigTS := st.2
  let largestGID : Int :=
    match valuesMax bigTS with
    | some m => m
    | none => 1
  let smallFirstGID : Int := lookupD smallTileSets tileSet 0
  match lookup bigTS tileSet with
  | some bigFirstGID =>
    if smallFirstGID = bigFirstGID then
      (smallLayers, bigTS)
    else
      let pos := listIndex smallFirstGID smallGID
      if smallGID.getD pos 0 = smallGID.getLastD 0 then
        (smallLayers.map (fun p =>
           (p.1, reMap p.2 smallFirstGID bigFirstGID MAX_TILES)), bigTS)
      else
        let nextGID := smallGID.getD (pos + 1) 0
        (smallLayers.map (fun p =>
           (p.1, reMap p.2 smallFirstGID bigFirstGID (nextGID - smallFirstGID))),
         bigTS)
  | none =>
    let largestGID : Int :=
      if strEndsWith tileSet "collision.tsx" then -MAX_TILES + 1 else largestGID
    let pos := listIndex smallFirstGID smallGID
    if smallGID.getD pos 0 = smallGID.getLastD 0 then
      (smallLayers.map (fun p =>
         (p.1, reMap p.2 smallFirstGID (largestGID + MAX_TILES) MAX_TILES)),
       dictInsert bigTS tileSet (largestGID + MAX_TILES))
    else
      let nextGID := smallGID.getD (pos + 1) 0
      (smallLayers.map (fun p =>
         (p.1, reMap p.2 smallFirstGID (largestGID + MAX_TILES)
           (nextGID - smallFirstGID))),
       if smallLayers.isEmpty then bigTS
       else dictInsert bigTS tileSet (largestGID + MAX_TILES))

/-- The tileset phase of `BigMap.putMap`: negate every layer grid of the
small map, then run the tileset loop.  Returns the small map's updated
layer dictionary and the big map's updated tileset dictionary.  Note: in
the branch where a new tileset is not the largest local firstgid, the
table assignment sits inside the per-layer loop in the source, so it is
skipped entirely when the small map has no layers. -/
def processTileSets (sMap : SmallMap) (bigTS : List (String × Int)) :
    List (String × Grid) × List (String × Int) :=
  let smallGID := sortInts (sMap.tileSets.map (fun p => p.2))
  let layers0 := sMap.layers.map (fun p => (p.1, negGrid p.2))
  (sMap.tileSets.map (fun p => p.1)).foldl
    (putTileSet smallGID sMap.tileSets) (layers0, bigTS)

/-- Slice assignment with absolute value:
`big[y : y + h, x : x + w] = numpy.absolute(small)`. -/
def placeGrid (big small : Grid) (y x h w : Nat) : Grid :=
  fun r c =>
    if y ≤ r ∧ r < y + h ∧ x ≤ c ∧ c < x + w then |small (r - y) (c - x)|
    else big r c

/-- One iteration of the overlay loop of `BigMap.putMap`: if the big map
already has the layer, overwrite the destination sub-rectangle with the
absolute-valued small grid; otherwise create an all-zero composite-sized
grid first and perform the same overwrite. -/
def overlayStep (y x h w : Nat) (bl : List (String × Grid))
    (p : String × Grid) : List (String × Grid) :=
  match lookup bl p.1 with
  | some bigGrid => dictInsert bl p.1 (placeGrid bigGrid p.2 y x h w)
  | none => dictInsert bl p.1 (placeGrid zerosGrid p.2 y x h w)

/-- The overlay loop of `BigMap.putMap` over all layers of the small map. -/
def overlayAll (bl : List (String × Grid)) (sl : List (String × Grid))
    (y x h w : Nat) : List (String × Grid) :=
  sl.foldl (overlayStep y x h w) bl

/-- Method `BigMap.putMap`, returning both the updated big map and the mutated
small map (the source updates `sMap.layers` in place). -/
def putMapFull (big : BigMap) (sMap : SmallMap) : BigMap × SmallMap :=
  let st := processTileSets sMap big.tileSets
  let bigLayers := overlayAll big.layers st.1 sMap.y sMap.x sMap.height sMap.width
  ({ big with
      layers := bigLayers
      tileSets := st.2
      objects := big.objects ++ sMap.objects },
   { sMap with layers := st.1 })

/-- Method `BigMap.putMap`, observing only the big map. -/
def putMap (big : BigMap) (sMap : SmallMap) : BigMap :=
  (putMapFull big sMap).1

/-- Read a layer grid of a layer dictionary, the all-zero grid when absent. -/
def getLayer (ls : List (String × Grid)) (nm : String) : Grid :=
  match lookup ls nm with
  | some g => g
  | none => zerosGrid

/-!
Loader side (`ParseMap`).  The XML plumbing (ElementTree) is external;
what is modelled is what `handleLayers` / `handleObjects` do with the
extracted data: the CSV body of each layer and the attribute dictionary
of each object.
-/

/-- Whitespace for Python-style stripping. -/
def isWSCh (c : Char) : Bool :=
  c = ' ' || c = '\t' || c = '\r' || c = '\n'

/-- Python `str.strip()` on a character list. -/
def trimCh (l : List Char) : List Char :=
  ((l.dropWhile isWSCh).reverse.dropWhile isWSCh).reverse

/-- Split a character list on a separator character (`str.split(sep)`,
also how both `genfromtxt` and splitting a body into lines behave). -/
def splitOnCh (sep : Char) : List Char → List (List Char)
  | [] => [[]]
  | a :: rest =>
    match splitOnCh sep rest with
    | [] => [[]]
    | cur :: others =>
      if a = sep then [] :: cur :: others else (a :: cur) :: others

/-- The value of a decimal digit character. -/
def digitVal (c : Char) : Option Nat :=
  if '0' ≤ c ∧ c ≤ '9' then some (c.toNat - '0'.toNat) else none

/-- Accumulate decimal digits (`none` on any non-digit). -/
def parseNatChAux : List Char → Nat → Option Nat
  | [], acc => some acc
  | c :: rest, acc =>
    match digitVal c with
    | some d => parseNatChAux rest (acc * 10 + d)
    | none => none

/-- Parse an optionally signed decimal integer, Python `int(...)` on an
already-stripped character list (`none` models the `ValueError`). -/
def parseIntCh : List Char → Option Int
  | [] => none
  | '-' :: rest =>
    if rest = [] then none
    else (parseNatChAux rest 0).map (fun n => -(n : Int))
  | '+' :: rest =>
    if rest = [] then none
    else (parseNatChAux rest 0).map (fun n => (n : Int))
  | l => (parseNatChAux l 0).map (fun n => (n : Int))

/-- Decimal digits of a natural number (the first argument is fuel,
always sufficient at `n + 1`). -/
def natToDigitsAux : Nat → Nat → List Char
  | 0, _ => []
  | fuel + 1, n =>
    if n < 10 then [Char.ofNat (48 + n)]
    else natToDigitsAux fuel (n / 10) ++ [Char.ofNat (48 + n % 10)]

/-- Python `str(...)` of an integer. -/
def intToStr (i : Int) : String :=
  match i with
  | Int.ofNat n => String.mk (natToDigitsAux (n + 1) n)
  | Int.negSucc n => String.mk ('-' :: natToDigitsAux (n + 2) (n + 1))

/-- Replacement `data.replace(',\n', '\n')`: strip the trailing comma Tiled leaves on
every row but the last. -/
def stripTrailingCommas : List Char → List Char
  | [] => []
  | ',' :: '\n' :: rest => '\n' :: stripTrailingCommas rest
  | a :: rest => a :: stripTrailingCommas rest

/-- One CSV field as parsed by `numpy.genfromtxt` on integer data (the
TMX bodies hold whole numbers; a field that does not parse would become
NaN in numpy, modelled as 0 here — no claim depends on such fields). -/
def parseField (cell : List Char) : Int :=
  (parseIntCh (trimCh cell)).getD 0

/-- The grid decoder of `ParseMap.handleLayers` for one layer body:
strip the trailing comma convention, then `numpy.genfromtxt` with
delimiter `,`: blank lines are skipped, the first data line fixes the
column count, and any line with a different number of fields makes the
read fail. -/
def decodeCSV (data : String) : Except String (List (List Int)) :=
  let cleaned := stripTrailingCommas data.data
  let lines := (splitOnCh '\n' cleaned).filter (fun l => trimCh l ≠ [])
  match lines with
  | [] => Except.error "no data"
  | first :: _ =>
    let ncols := (splitOnCh ',' first).length
    let rows := lines.map (fun l => (splitOnCh ',' l).map parseField)
    if rows.all (fun row => row.length = ncols) then Except.ok rows
    else Except.error "wrong number of columns"

/-- The raw content handed to `ParseMap.handleMap`: the declared map
attributes and, per layer element, its name and CSV body text. -/
structure RawMap where
  width : Nat
  height : Nat
  rawLayers : List (String × String)

/-- Method `ParseMap.handleLayers` over every layer element: decode each CSV
body (the declared width/height attributes are never consulted); the
first failing layer aborts the parse. -/
def handleLayers (raw : RawMap) :
    Except String (List (String × List (List Int))) :=
  raw.rawLayers.foldr
    (fun p acc =>
      match decodeCSV p.2, acc with
      | Except.ok rows, Except.ok rest => Except.ok ((p.1, rows) :: rest)
      | Except.error e, _ => Except.error e
      | Except.ok _, Except.error e => Except.error e)
    (Except.ok [])

/-- Method `ParseMap.handleObjects` for one object element, at placement offset
`(x, y)` in tile units: `obj.attrib['x'] = str(int(obj.get('x')) + 32*x)`
then the same for `'y'`; Python `int(...)` raises when the attribute is
missing or not numeric, modelled by `none`. -/
def handleObject (x y : Int) (obj : Obj) : Option Obj :=
  match (objGet obj "x").bind (fun s => parseIntCh (trimCh s.data)) with
  | none => none
  | some ox =>
    let obj1 := objSet obj "x" (intToStr (ox + 32 * x))
    match (objGet obj1 "y").bind (fun s => parseIntCh (trimCh s.data)) with
    | none => none
    | some oy => some (objSet obj1 "y" (intToStr (oy + 32 * y)))

/-- Method `ParseMap.handleObjects` over the object list, preserving order. -/
def handleObjects (x y : Int) (objs : List Obj) : Option (List Obj) :=
  objs.mapM (handleObject x y)

/-!
Specification-side definitions: the allocation formula, the table
invariant, grid non-negativity, and the concrete inputs used by
counterexamples and witnesses.
-/

/-- The firstgid `putMap` stores for a tileset that is new to the big
map: `1` for a collision tileset (`largestGID = -MAX_TILES + 1` followed
by `+ MAX_TILES`), otherwise the largest firstgid already in the table
plus `MAX_TILES`, where the largest is taken to be `1` when the table is
empty. -/
def allocGID (bigTS : List (String × Int)) (tileSet : String) : Int :=
  if strEndsWith tileSet "collision.tsx" then 1
  else (match valuesMax bigTS with | some m => m | none => 1) + MAX_TILES

/-- Two tileset blocks of `MAX_TILES` gids starting at `a` and `b` do not
overlap. -/
def spansDisjoint (a b : Int) : Prop :=
  a + MAX_TILES ≤ b ∨ b + MAX_TILES ≤ a

/-- Invariant of the big map's tileset table: a collision tileset holds
firstgid 1, every other tileset holds a firstgid of at least
`MAX_TILES + 1`, and two entries with distinct paths that are not both
collision tilesets occupy disjoint gid blocks. -/
def TableOK (ts : List (String × Int)) : Prop :=
  (∀ p ∈ ts, (strEndsWith p.1 "collision.tsx" = true → p.2 = 1) ∧
    (strEndsWith p.1 "collision.tsx" = false → 513 ≤ p.2)) ∧
  (∀ p ∈ ts, ∀ q ∈ ts, p.1 ≠ q.1 →
    ¬(strEndsWith p.1 "collision.tsx" = true ∧ strEndsWith q.1 "collision.tsx" = true) →
    spansDisjoint p.2 q.2)

/-- Every cell of every layer grid of a layer dictionary is non-negative. -/
def NonNegLayers (ls : List (String × Grid)) : Prop :=
  ∀ p ∈ ls, ∀ r c, 0 ≤ p.2 r c

/-- A small map whose two tilesets are both recognized as collision
tilesets by the file-naming convention. -/
def sColl : SmallMap :=
  { x := 0, y := 0, width := 1, height := 1,
    layers := [("L", fun _ _ => 0)],
    tileSets := [("a-collision.tsx", 1), ("b-collision.tsx", 1)],
    objects := [] }

/-- A small map with two tilesets and no layer at all. -/
def sTwo : SmallMap :=
  { x := 0, y := 0, width := 1, height := 1,
    layers := [],
    tileSets := [("a.tsx", 1), ("b.tsx", 5)],
    objects := [] }

/-- A one-layer, tileset-free small map whose single grid holds 1. -/
def sOne : SmallMap :=
  { x := 0, y := 0, width := 1, height := 1,
    layers := [("L", fun _ _ => 1)],
    tileSets := [], objects := [] }

/-- A small map referencing the tileset `g.tsx` with local firstgid 1. -/
def sG : SmallMap :=
  { x := 0, y := 0, width := 1, height := 1,
    layers := [("L", fun _ _ => 1)],
    tileSets := [("g.tsx", 1)],
    objects := [] }

/-- A small map referencing the tileset `h.tsx` with local firstgid 1. -/
def sH : SmallMap :=
  { x := 0, y := 0, width := 1, height := 1,
    layers := [("L", fun _ _ => 1)],
    tileSets := [("h.tsx", 1)],
    objects := [] }

/-- The 4×4 small map of the spec's Collision example: placed at offset
(2, 3), an all-zero Collision layer, no tilesets. -/
def cMap : SmallMap :=
  { x := 2, y := 3, width := 4, height := 4,
    layers := [("Collision", fun _ _ => 0)],
    tileSets := [], objects := [] }

/-- A raw map declaring width 3 whose single layer body has two cells
per row. -/
def rawCex : RawMap :=
  { width := 3, height := 2, rawLayers := [("L", "1,2\n3,4")] }

/-- A sample object element with coordinates and one opaque attribute. -/
def objEx : Obj :=
  { attrib := [("x", "5"), ("y", "6"), ("name", "chest")] }

/-!
Properties of the dictionary model.
-/

theorem lookup_cons {α : Type} (p : String × α) (d : List (String × α)) (k : String) :
    lookup (p :: d) k = if p.1 = k then some p.2 else lookup d k := by
  by_cases h : p.1 = k <;> simp [lookup, List.find?_cons, h]

theorem hasKey_false_iff {α : Type} (d : List (String × α)) (k : String) :
    hasKey d k = false ↔ lookup d k = none := by
  induction d with
  | nil => simp [hasKey, lookup]
  | cons p d ih =>
    by_cases h : p.1 = k <;> simp [hasKey, lookup_cons, h] at ih ⊢
    · exact ih

theorem lookup_append {α : Type} (d e : List (String × α)) (k : String) :
    lookup (d ++ e) k =
      (match lookup d k with
       | some v => some v
       | none => lookup e k) := by
  induction d with
  | nil => simp [lookup]
  | cons p d ih =>
    by_cases h : p.1 = k <;> simp [lookup_cons, h, ih]

theorem lookup_replace_self {α : Type} (d : List (String × α)) (k : String) (v : α)
    (hk : hasKey d k = true) :
    lookup (d.map (fun p => if p.1 = k then (k, v) else p)) k = some v := by
  induction d with
  | nil => simp [hasKey] at hk
  | cons p d ih =>
    by_cases h : p.1 = k
    · simp [lookup_cons, h]
    · simp only [hasKey, List.any_cons, Bool.or_eq_true] at hk
      rcases hk with hk | hk
      · simp [h] at hk
      · simpa [lookup_cons, h] using ih hk

theorem lookup_replace_ne {α : Type} (d : List (String × α)) (k : String) (v : α)
    (q : String) (h : q ≠ k) :
    lookup (d.map (fun p => if p.1 = k then (k, v) else p)) q = lookup d q := by
  induction d with
  | nil => simp
  | cons p d ih =>
    by_cases hp : p.1 = k
    · simp [lookup_cons, hp, Ne.symm h, ih]
    · simp [lookup_cons, hp, ih]

theorem dictInsert_lookup_self {α : Type} (d : List (String × α)) (k : String) (v : α) :
    lookup (dictInsert d k v) k = some v := by
  unfold dictInsert
  by_cases hk : hasKey d k
  · simpa [hk] using lookup_replace_self d k v hk
  · have hn : lookup d k = none := (hasKey_false_iff d k).mp (by simpa using hk)
    simp [hk, lookup_append, hn, lookup_cons]

theorem dictInsert_lookup_ne {α : Type} (d : List (String × α)) (k : String) (v : α)
    (q : String) (h : q ≠ k) : lookup (dictInsert d k v) q = lookup d q := by
  unfold dictInsert
  by_cases hk : hasKey d k
  · simpa [hk] using lookup_replace_ne d k v q h
  · simp only [hk, Bool.false_eq_true, if_false, lookup_append]
    cases hq : lookup d q <;> simp [lookup_cons, Ne.symm h, lookup]

theorem dictInsert_of_lookup_none {α : Type} (d : List (String × α)) (k : String)
    (v : α) (h : lookup d k = none) : dictInsert d k v = d ++ [(k, v)] := by
  unfold dictInsert
  have hf : hasKey d k = false := (hasKey_false_iff d k).mpr h
  simp [hf]

theorem mem_dictInsert {α : Type} (d : List (String × α)) (k : String) (v : α)
    (p : String × α) (h : p ∈ dictInsert d k v) : p ∈ d ∨ p = (k, v) := by
  unfold dictInsert at h
  by_cases hk : hasKey d k
  · simp only [hk, if_true, List.mem_map] at h
    obtain ⟨q, hq, hqe⟩ := h
    by_cases hqk : q.1 = k
    · simp only [hqk, if_true] at hqe
      right; exact hqe.symm
    · simp only [hqk, if_false] at hqe
      left; exact hqe ▸ hq
  · simp only [hk, Bool.false_eq_true, if_false, List.mem_append,
      List.mem_singleton] at h
    exact h

theorem lookup_mem {α : Type} (d : List (String × α)) (k : String) (v : α)
    (h : lookup d k = some v) : (k, v) ∈ d := by
  induction d with
  | nil => simp [lookup] at h
  | cons p d ih =>
    by_cases hp : p.1 = k
    · simp only [lookup_cons, hp, if_true, Option.some.injEq] at h
      cases p
      simp_all
    · simp only [lookup_cons, hp, if_false] at h
      right
      exact ih h

theorem init_le_foldl_max (l : List Int) (a : Int) : a ≤ l.foldl max a := by
  induction l generalizing a with
  | nil => simp
  | cons b bs ih => exact le_trans (le_max_left a b) (ih (max a b))

theorem le_foldl_max (l : List Int) (a x : Int) (h : x = a ∨ x ∈ l) :
    x ≤ l.foldl max a := by
  induction l generalizing a with
  | nil => simp_all
  | cons b bs ih =>
    simp only [List.foldl_cons]
    rcases h with h | h
    · subst h
      exact le_trans (le_max_left x b) (init_le_foldl_max bs (max x b))
    · rcases List.mem_cons.mp h with h | h
      · subst h
        exact le_trans (le_max_right a x) (init_le_foldl_max bs (max a x))
      · exact ih (max a b) (Or.inr h)

theorem le_valuesMax (ts : List (String × Int)) (m : Int)
    (hm : valuesMax ts = some m) (p : String × Int) (hp : p ∈ ts) : p.2 ≤ m := by
  unfold valuesMax at hm
  cases hts : ts.map (fun p => p.2) with
  | nil => simp [hts] at hm
  | cons v vs =>
    simp only [hts, Option.some.injEq] at hm
    have : p.2 ∈ v :: vs := hts ▸ List.mem_map_of_mem (fun p => p.2) hp
    rcases List.mem_cons.mp this with h | h
    · exact hm ▸ le_foldl_max vs v p.2 (Or.inl h)
    · exact hm ▸ le_foldl_max vs v p.2 (Or.inr h)

theorem valuesMax_of_ne_nil (ts : List (String × Int)) (h : ts ≠ []) :
    ∃ m, valuesMax ts = some m := by
  unfold valuesMax
  cases hts : ts.map (fun p => p.2) with
  | nil => exact absurd (List.map_eq_nil_iff.mp hts) h
  | cons v vs => exact ⟨vs.foldl max v, rfl⟩

theorem lookup_map_of_mem {α β : Type} (f : α → β) (ls : List (String × α))
    (nm : String) (a : α) (hnd : (keys ls).Nodup) (hmem : (nm, a) ∈ ls) :
    lookup (ls.map (fun p => (p.1, f p.2))) nm = some (f a) := by
  induction ls with
  | nil => simp at hmem
  | cons p ls ih =>
    simp only [keys, List.map_cons, List.nodup_cons] at hnd
    rcases List.mem_cons.mp hmem with h | h
    · simp [← h, lookup_cons]
    · have hp : p.1 ≠ nm := by
        intro he
        exact hnd.1 (he ▸ (by simpa [keys] using List.mem_map_of_mem (fun q => q.1) h))
      simp only [List.map_cons, lookup_cons, hp, if_false]
      exact ih (by simpa [keys] using hnd.2) h


/-!
The tileset phase: characterization of the table updates.
-/

theorem putTileSet_snd_of_lookup_some (smallGID : List Int)
    (sts : List (String × Int))
    (st : List (String × Grid) × List (String × Int)) (k : String)
    (bigFirstGID : Int) (hl : lookup st.2 k = some bigFirstGID) :
    (putTileSet smallGID sts st k).2 = st.2 := by
  unfold putTileSet
  simp only [hl]
  split_ifs <;> rfl

theorem putTileSet_snd_of_lookup_none (smallGID : List Int)
    (sts : List (String × Int))
    (st : List (String × Grid) × List (String × Int)) (k : String)
    (hl : lookup st.2 k = none) :
    (st.1 = [] ∧ (putTileSet smallGID sts st k).2 = st.2) ∨
    (putTileSet smallGID sts st k).2 = dictInsert st.2 k (allocGID st.2 k) := by
  unfold putTileSet
  simp only [hl]
  split_ifs <;>
    first
      | (left; exact ⟨List.isEmpty_iff.mp (by assumption), rfl⟩)
      | (right; simp [allocGID, MAX_TILES, *])

theorem putTileSet_new_alloc (smallGID : List Int) (sts : List (String × Int))
    (st : List (String × Grid) × List (String × Int)) (k : String)
    (hnone : lookup st.2 k = none) (hlayers : st.1 ≠ []) :
    (putTileSet smallGID sts st k).2 = dictInsert st.2 k (allocGID st.2 k) := by
  rcases putTileSet_snd_of_lookup_none smallGID sts st k hnone with ⟨h, _⟩ | h
  · exact absurd h hlayers
  · exact h

/-!
The tileset-table invariant and its preservation.
-/

theorem spansDisjoint_comm (a b : Int) (h : spansDisjoint a b) :
    spansDisjoint b a :=
  h.symm

theorem TableOK_val_ge_one (ts : List (String × Int)) (h : TableOK ts)
    (p : String × Int) (hp : p ∈ ts) : 1 ≤ p.2 := by
  rcases Bool.eq_false_or_eq_true (strEndsWith p.1 "collision.tsx") with h0 | h0
  · have := (h.1 p hp).1 h0
    omega
  · have := (h.1 p hp).2 h0
    omega

theorem allocGID_ge (ts : List (String × Int)) (k : String) (h : TableOK ts)
    (hcol : strEndsWith k "collision.tsx" = false) : 513 ≤ allocGID ts k := by
  unfold allocGID
  rw [hcol]
  simp only [Bool.false_eq_true, if_false]
  by_cases hts : ts = []
  · subst hts
    simp [valuesMax, MAX_TILES]
  · obtain ⟨m, hm⟩ := valuesMax_of_ne_nil ts hts
    obtain ⟨p, hp⟩ := List.exists_mem_of_ne_nil ts hts
    have h1 : 1 ≤ p.2 := TableOK_val_ge_one ts h p hp
    have h2 : p.2 ≤ m := le_valuesMax ts m hm p hp
    simp only [hm, MAX_TILES]
    omega

theorem allocGID_dominates (ts : List (String × Int)) (k : String)
    (p : String × Int) (hp : p ∈ ts)
    (hcol : strEndsWith k "collision.tsx" = false) :
    p.2 + MAX_TILES ≤ allocGID ts k := by
  unfold allocGID
  rw [hcol]
  simp only [Bool.false_eq_true, if_false]
  obtain ⟨m, hm⟩ := valuesMax_of_ne_nil ts (by rintro rfl; simp at hp)
  have h2 : p.2 ≤ m := le_valuesMax ts m hm p hp
  simp only [hm]
  omega

theorem TableOK_insert (ts : List (String × Int)) (k : String)
    (h : TableOK ts) (hk : lookup ts k = none) :
    TableOK (dictInsert ts k (allocGID ts k)) := by
  rw [dictInsert_of_lookup_none ts k _ hk]
  constructor
  · intro p hp
    rcases List.mem_append.mp hp with hp | hp
    · exact h.1 p hp
    · rw [List.mem_singleton.mp hp]
      dsimp only
      constructor
      · intro hc
        simp [allocGID, hc]
      · intro hc
        exact allocGID_ge ts k h hc
  · intro p hp q hq hne hcc
    rcases List.mem_append.mp hp with hp | hp <;>
      rcases List.mem_append.mp hq with hq | hq
    · exact h.2 p hp q hq hne hcc
    · rw [List.mem_singleton.mp hq]
      rw [List.mem_singleton.mp hq] at hcc
      dsimp only at hcc ⊢
      by_cases hc : strEndsWith k "collision.tsx"
      · have hpc : strEndsWith p.1 "collision.tsx" = false := by
          rcases Bool.eq_false_or_eq_true (strEndsWith p.1 "collision.tsx") with h0 | h0
          · exact absurd ⟨h0, hc⟩ hcc
          · exact h0
        have hge := (h.1 p hp).2 hpc
        right
        have hv : allocGID ts k = 1 := by simp [allocGID, hc]
        rw [hv]
        simp only [MAX_TILES]
        omega
      · left
        exact allocGID_dominates ts k p hp (by simpa using hc)
    · rw [List.mem_singleton.mp hp]
      rw [List.mem_singleton.mp hp] at hcc
      dsimp only at hcc ⊢
      apply spansDisjoint_comm
      by_cases hc : strEndsWith k "collision.tsx"
      · have hqc : strEndsWith q.1 "collision.tsx" = false := by
          rcases Bool.eq_false_or_eq_true (strEndsWith q.1 "collision.tsx") with h0 | h0
          · exact absurd ⟨hc, h0⟩ hcc
          · exact h0
        have hge := (h.1 q hq).2 hqc
        right
        have hv : allocGID ts k = 1 := by simp [allocGID, hc]
        rw [hv]
        simp only [MAX_TILES]
        omega
      · left
        exact allocGID_dominates ts k q hq (by simpa using hc)
    · rw [List.mem_singleton.mp hp, List.mem_singleton.mp hq] at hne
      simp at hne

theorem TableOK_putTileSet (smallGID : List Int) (sts : List (String × Int))
    (st : List (String × Grid) × List (String × Int)) (k : String)
    (h : TableOK st.2) : TableOK (putTileSet smallGID sts st k).2 := by
  cases hl : lookup st.2 k with
  | some v =>
    rw [putTileSet_snd_of_lookup_some smallGID sts st k v hl]
    exact h
  | none =>
    rcases putTileSet_snd_of_lookup_none smallGID sts st k hl with ⟨_, he⟩ | he
    · rw [he]; exact h
    · rw [he]; exact TableOK_insert st.2 k h hl

theorem TableOK_foldl_putTileSet (ks : List String) (smallGID : List Int)
    (sts : List (String × Int))
    (st : List (String × Grid) × List (String × Int)) (h : TableOK st.2) :
    TableOK (ks.foldl (putTileSet smallGID sts) st).2 := by
  induction ks generalizing st with
  | nil => exact h
  | cons k ks ih =>
    exact ih (putTileSet smallGID sts st k) (TableOK_putTileSet smallGID sts st k h)

theorem TableOK_processTileSets (sMap : SmallMap) (ts : List (String × Int))
    (h : TableOK ts) : TableOK (processTileSets sMap ts).2 := by
  unfold processTileSets
  exact TableOK_foldl_putTileSet _ _ _ _ h

theorem putMap_tileSets_eq (big : BigMap) (sMap : SmallMap) :
    (putMap big sMap).tileSets = (processTileSets sMap big.tileSets).2 := rfl

theorem TableOK_putMap (big : BigMap) (sMap : SmallMap)
    (h : TableOK big.tileSets) : TableOK (putMap big sMap).tileSets := by
  rw [putMap_tileSets_eq]
  exact TableOK_processTileSets sMap big.tileSets h

theorem TableOK_foldl_putMap (ms : List SmallMap) (big : BigMap)
    (h : TableOK big.tileSets) : TableOK ((ms.foldl putMap big).tileSets) := by
  induction ms generalizing big with
  | nil => exact h
  | cons s ms ih => exact ih (putMap big s) (TableOK_putMap big s h)

theorem TableOK_mkBigMap (w h : Nat) (nm : String) :
    TableOK (mkBigMap w h nm).tileSets := by
  constructor <;> simp [mkBigMap]

/-!
Stability of existing table entries (no `putMap` ever rewrites one).
-/

theorem putTileSet_lookup_stable (smallGID : List Int) (sts : List (String × Int))
    (st : List (String × Grid) × List (String × Int)) (k path : String) (v : Int)
    (h : lookup st.2 path = some v) :
    lookup (putTileSet smallGID sts st k).2 path = some v := by
  cases hl : lookup st.2 k with
  | some w =>
    rw [putTileSet_snd_of_lookup_some smallGID sts st k w hl]
    exact h
  | none =>
    rcases putTileSet_snd_of_lookup_none smallGID sts st k hl with ⟨_, he⟩ | he
    · rw [he]; exact h
    · rw [he]
      have hne : path ≠ k := by
        rintro rfl
        rw [h] at hl
        cases hl
      rw [dictInsert_lookup_ne st.2 k _ path hne]
      exact h

theorem foldl_putTileSet_lookup_stable (ks : List String) (smallGID : List Int)
    (sts : List (String × Int))
    (st : List (String × Grid) × List (String × Int)) (path : String) (v : Int)
    (h : lookup st.2 path = some v) :
    lookup (ks.foldl (putTileSet smallGID sts) st).2 path = some v := by
  induction ks generalizing st with
  | nil => exact h
  | cons k ks ih =>
    exact ih (putTileSet smallGID sts st k)
      (putTileSet_lookup_stable smallGID sts st k path v h)

theorem processTileSets_lookup_stable (sMap : SmallMap) (ts : List (String × Int))
    (path : String) (v : Int) (h : lookup ts path = some v) :
    lookup (processTileSets sMap ts).2 path = some v := by
  unfold processTileSets
  exact foldl_putTileSet_lookup_stable _ _ _ _ path v h

theorem putMap_lookup_stable (big : BigMap) (sMap : SmallMap)
    (path : String) (v : Int) (h : lookup big.tileSets path = some v) :
    lookup (putMap big sMap).tileSets path = some v := by
  rw [putMap_tileSets_eq]
  exact processTileSets_lookup_stable sMap big.tileSets path v h

/-!
The overlay loop: characterization of the layer dictionary it produces.
-/

theorem overlayStep_eq (y x h w : Nat) (bl : List (String × Grid))
    (p : String × Grid) :
    overlayStep y x h w bl p
      = dictInsert bl p.1 (placeGrid (getLayer bl p.1) p.2 y x h w) := by
  unfold overlayStep getLayer
  cases hl : lookup bl p.1 <;> simp [hl]

theorem overlayAll_lookup_not_mem (sl : List (String × Grid))
    (bl : List (String × Grid)) (y x h w : Nat) (nm : String)
    (hnm : nm ∉ keys sl) :
    lookup (overlayAll bl sl y x h w) nm = lookup bl nm := by
  induction sl generalizing bl with
  | nil => rfl
  | cons p ps ih =>
    simp only [keys, List.map_cons, List.mem_cons, not_or] at hnm
    show lookup (overlayAll (overlayStep y x h w bl p) ps y x h w) nm = lookup bl nm
    rw [ih (overlayStep y x h w bl p) (by simpa [keys] using hnm.2)]
    rw [overlayStep_eq]
    exact dictInsert_lookup_ne bl p.1 _ nm (fun he => hnm.1 (he ▸ rfl))

theorem overlayAll_lookup_mem (sl : List (String × Grid))
    (bl : List (String × Grid)) (y x h w : Nat) (nm : String) (g : Grid)
    (hnd : (keys sl).Nodup) (hmem : (nm, g) ∈ sl) :
    lookup (overlayAll bl sl y x h w) nm
      = some (placeGrid (getLayer bl nm) g y x h w) := by
  induction sl generalizing bl with
  | nil => cases hmem
  | cons p ps ih =>
    simp only [keys, List.map_cons, List.nodup_cons] at hnd
    show lookup (overlayAll (overlayStep y x h w bl p) ps y x h w) nm = _
    rcases List.mem_cons.mp hmem with he | hmem2
    · have hp1 : p.1 = nm := by rw [← he]
      rw [overlayAll_lookup_not_mem ps _ y x h w nm
        (by simpa [keys, hp1] using hnd.1)]
      rw [overlayStep_eq, hp1]
      have hg : p.2 = g := by rw [← he]
      rw [hg]
      exact dictInsert_lookup_self bl nm _
    · have hne : p.1 ≠ nm := by
        intro he2
        apply hnd.1
        rw [he2]
        exact List.mem_map_of_mem (fun q => q.1) hmem2
      have hgl : getLayer (overlayStep y x h w bl p) nm = getLayer bl nm := by
        unfold getLayer
        rw [overlayStep_eq, dictInsert_lookup_ne bl p.1 _ nm (Ne.symm hne)]
      rw [ih (overlayStep y x h w bl p) hnd.2 hmem2, hgl]

/-!
Non-negativity of composite grids.
-/

theorem placeGrid_nonneg (big small : Grid) (y x h w : Nat)
    (hb : ∀ r c, 0 ≤ big r c) :
    ∀ r c, 0 ≤ placeGrid big small y x h w r c := by
  intro r c
  unfold placeGrid
  split_ifs
  · exact abs_nonneg _
  · exact hb r c

theorem NonNegLayers_getLayer (ls : List (String × Grid)) (nm : String)
    (h : NonNegLayers ls) : ∀ r c, 0 ≤ getLayer ls nm r c := by
  intro r c
  unfold getLayer
  cases hl : lookup ls nm with
  | none => exact le_refl 0
  | some g => exact h (nm, g) (lookup_mem ls nm g hl) r c

theorem NonNegLayers_dictInsert (ls : List (String × Grid)) (nm : String)
    (g : Grid) (h : NonNegLayers ls) (hg : ∀ r c, 0 ≤ g r c) :
    NonNegLayers (dictInsert ls nm g) := by
  intro p hp r c
  rcases mem_dictInsert ls nm g p hp with hp | hp
  · exact h p hp r c
  · rw [hp]
    exact hg r c

theorem NonNegLayers_overlayStep (bl : List (String × Grid))
    (p : String × Grid) (y x h w : Nat) (hb : NonNegLayers bl) :
    NonNegLayers (overlayStep y x h w bl p) := by
  rw [overlayStep_eq]
  exact NonNegLayers_dictInsert bl p.1 _ hb
    (placeGrid_nonneg _ p.2 y x h w (NonNegLayers_getLayer bl p.1 hb))

theorem NonNegLayers_overlayAll (sl : List (String × Grid))
    (bl : List (String × Grid)) (y x h w : Nat) (hb : NonNegLayers bl) :
    NonNegLayers (overlayAll bl sl y x h w) := by
  induction sl generalizing bl with
  | nil => exact hb
  | cons p ps ih =>
    exact ih (overlayStep y x h w bl p) (NonNegLayers_overlayStep bl p y x h w hb)

theorem putMap_layers_eq (big : BigMap) (sMap : SmallMap) :
    (putMap big sMap).layers
      = overlayAll big.layers (processTileSets sMap big.tileSets).1
          sMap.y sMap.x sMap.height sMap.width := rfl

theorem NonNegLayers_mkBigMap (w h : Nat) (nm : String) :
    NonNegLayers (mkBigMap w h nm).layers := by
  intro p hp r c
  simp only [mkBigMap, List.mem_singleton] at hp
  rw [hp]
  norm_num

/-!
The remap step on grids without the negation marker.
-/

theorem foldl_maskedSet_eq (A init : Grid) (iVal fVal : Int) (l : List Nat)
    (r c : Nat) (h : ∀ i ∈ l, A r c ≠ -(iVal + (i : Int))) :
    (l.foldl (fun out i => maskedSet A out (-(iVal + (i : Int)))
      (fVal + (i : Int))) init) r c = init r c := by
  induction l generalizing init with
  | nil => rfl
  | cons i l ih =>
    show (l.foldl (fun out i => maskedSet A out (-(iVal + (i : Int)))
      (fVal + (i : Int)))
      (maskedSet A init (-(iVal + (i : Int))) (fVal + (i : Int)))) r c = init r c
    rw [ih (maskedSet A init (-(iVal + (i : Int))) (fVal + (i : Int)))
      (fun j hj => h j (List.mem_cons_of_mem i hj))]
    have hne := h i (List.mem_cons_self i l)
    show (if A r c = -(iVal + (i : Int)) then fVal + (i : Int) else init r c)
        = init r c
    rw [if_neg hne]

theorem reMap_pointwise_id (A : Grid) (iVal fVal n : Int) (r c : Nat)
    (h : ∀ i : Nat, A r c ≠ -(iVal + (i : Int))) :
    reMap A iVal fVal n r c = A r c := by
  unfold reMap
  exact foldl_maskedSet_eq A A iVal fVal (List.range n.toNat) r c
    (fun i _ => h i)

theorem getLayer_eq_of_lookup (ls : List (String × Grid)) (nm : String)
    (g : Grid) (h : lookup ls nm = some g) : getLayer ls nm = g := by
  unfold getLayer
  rw [h]

/-!
Claims.
-/

/-- Claim C1, corrected.  For a composite built by folding any sequence of
small maps into a fresh big map, two tileset-table entries with distinct
paths occupy disjoint `MAX_TILES = 512`-wide gid spans — provided the two
paths are not both recognized as collision tilesets.  The proviso is
forced: every path ending in "collision.tsx" is allocated firstgid 1, so
two distinct such paths share the span `[1, 512]` (see the
counterexample). -/
theorem putMap_spans_disjoint (w h : Nat) (nm : String) (ms : List SmallMap)
    (p q : String × Int)
    (hp : p ∈ (ms.foldl putMap (mkBigMap w h nm)).tileSets)
    (hq : q ∈ (ms.foldl putMap (mkBigMap w h nm)).tileSets)
    (hne : p.1 ≠ q.1)
    (hcol : ¬(strEndsWith p.1 "collision.tsx" = true ∧
              strEndsWith q.1 "collision.tsx" = true)) :
    spansDisjoint p.2 q.2 := by
  exact (TableOK_foldl_putMap ms (mkBigMap w h nm) (TableOK_mkBigMap w h nm)).2
    p hp q hq hne hcol

/-- Witness for C1: merging `sG` then `sH` yields entries 513 and 1025,
whose spans the theorem proves disjoint. -/
theorem putMap_spans_disjoint_witness :
    (("g.tsx", (513 : Int)) ∈ (([sG, sH].foldl putMap (mkBigMap 4 4 "b")).tileSets) ∧
     ("h.tsx", (1025 : Int)) ∈ (([sG, sH].foldl putMap (mkBigMap 4 4 "b")).tileSets)) ∧
    spansDisjoint 513 1025 :=
  ⟨⟨by decide, by decide⟩,
   putMap_spans_disjoint 4 4 "b" [sG, sH] ("g.tsx", 513) ("h.tsx", 1025)
     (by decide) (by decide) (by decide) (by decide)⟩

/-- Counterexample for C1 as stated: the map `sColl` references two
distinct tileset paths that both end in "collision.tsx"; after one
`putMap` both table entries hold firstgid 1, and two spans of width
`MAX_TILES` starting at 1 and 1 overlap. -/
theorem putMap_spans_overlap_cex :
    ("a-collision.tsx", (1 : Int)) ∈ (putMap (mkBigMap 4 4 "b") sColl).tileSets ∧
    ("b-collision.tsx", (1 : Int)) ∈ (putMap (mkBigMap 4 4 "b") sColl).tileSets ∧
    ("a-collision.tsx" : String) ≠ "b-collision.tsx" ∧
    ¬spansDisjoint 1 1 := by
  refine ⟨by decide, by decide, by decide, ?_⟩
  unfold spansDisjoint MAX_TILES
  omega

/-- Claim C2, corrected.  When the tileset loop of `putMap` encounters a
path not yet in the big map's table and the record has at least one
layer, it stores firstgid `currentMax + MAX_TILES` for it — where
`currentMax` is the largest firstgid already in the table, taken as 1
when the table is empty (so the first real tileset gets 513) — except
that a path ending in "collision.tsx" is always stored firstgid 1.  The
layer proviso is forced: for a record with no layers, the branch for a
tileset that is not the record's largest local firstgid performs the
table assignment inside the per-layer loop, so no entry is ever created
(see the counterexample). -/
theorem putTileSet_new_assigns (smallGID : List Int) (sts : List (String × Int))
    (st : List (String × Grid) × List (String × Int)) (k : String)
    (hnone : lookup st.2 k = none) (hlayers : st.1 ≠ []) :
    lookup (putTileSet smallGID sts st k).2 k
      = some (if strEndsWith k "collision.tsx" then (1 : Int)
          else (match valuesMax st.2 with | some m => m | none => 1) + MAX_TILES) := by
  rw [putTileSet_new_alloc smallGID sts st k hnone hlayers]
  rw [dictInsert_lookup_self]
  rfl

/-- Witness for C2: a new non-collision tileset against an empty table
is stored firstgid `1 + MAX_TILES = 513`. -/
theorem putTileSet_new_assigns_witness :
    lookup (putTileSet [1] [("g.tsx", 1)]
      ([("L", fun _ _ => (0 : Int))], ([] : List (String × Int))) "g.tsx").2 "g.tsx"
      = some 513 := by
  rw [putTileSet_new_assigns [1] [("g.tsx", 1)]
    ([("L", fun _ _ => (0 : Int))], ([] : List (String × Int))) "g.tsx"
    (by rfl) (by exact List.cons_ne_nil _ _)]
  rfl

/-- Counterexample for C2 as stated: `sTwo` has no layers and two new
tilesets (local firstgids 1 and 5).  `putMap` encounters "a.tsx" first,
absent from the empty table, yet creates no entry for it at all — the
claimed assignment never happens — while "b.tsx" (the largest local
firstgid) is entered with 513. -/
theorem putMap_layerless_skips_cex :
    lookup (putMap (mkBigMap 4 4 "b") sTwo).tileSets "a.tsx" = none ∧
    lookup (putMap (mkBigMap 4 4 "b") sTwo).tileSets "b.tsx" = some 513 := by
  exact ⟨by decide, by decide⟩

/-- Claim C7, confirmed.  Once a tileset path has an entry in the
composite's table, folding any further sequence of small maps with
`putMap` leaves that entry untouched: the same path always maps to the
same global firstgid. -/
theorem putMap_table_consistent (big : BigMap) (ms : List SmallMap)
    (path : String) (v : Int) (h : lookup big.tileSets path = some v) :
    lookup ((ms.foldl putMap big).tileSets) path = some v := by
  induction ms generalizing big with
  | nil => exact h
  | cons s ms ih => exact ih (putMap big s) (putMap_lookup_stable big s path v h)

/-- Witness for C7: after merging `sG` (entry "g.tsx" ↦ 513), further
merging `sH` and `sG` again leaves the entry at 513. -/
theorem putMap_table_consistent_witness :
    lookup (([sH, sG].foldl putMap (putMap (mkBigMap 4 4 "b") sG)).tileSets)
      "g.tsx" = some 513 :=
  putMap_table_consistent (putMap (mkBigMap 4 4 "b") sG) [sH, sG] "g.tsx" 513
    (by decide)

/-- Claim C3, corrected.  The composite receives its own copy of the
grid data (in this pure model every stored grid is a value), but the
record's grids are not left unchanged: `putMap` reassigns every layer of
the incoming record to its negation up front (and possibly remaps it),
and never restores it.  Amended statement proved here: for a record with
no tilesets, after the call each layer grid of the record equals the
negation of the original. -/
theorem putMapFull_negates_record (big : BigMap) (sMap : SmallMap)
    (nm : String) (g : Grid) (hts : sMap.tileSets = [])
    (hnd : (keys sMap.layers).Nodup) (hmem : (nm, g) ∈ sMap.layers) :
    lookup (putMapFull big sMap).2.layers nm = some (negGrid g) := by
  have he : (putMapFull big sMap).2.layers
      = sMap.layers.map (fun p => (p.1, negGrid p.2)) := by
    show (processTileSets sMap big.tileSets).1
        = sMap.layers.map (fun p => (p.1, negGrid p.2))
    unfold processTileSets
    rw [hts]
    rfl
  rw [he]
  exact lookup_map_of_mem negGrid sMap.layers nm g hnd hmem

/-- Witness for C3 (amended): the single layer of `sOne` comes out of
the call negated. -/
theorem putMapFull_negates_record_witness :
    lookup (putMapFull (mkBigMap 1 1 "b") sOne).2.layers "L"
      = some (negGrid (fun _ _ => 1)) :=
  putMapFull_negates_record (mkBigMap 1 1 "b") sOne "L" (fun _ _ => 1)
    (by rfl) (by decide) (List.Mem.head _)

/-- Counterexample for C3 as stated: the record `sOne` holds 1 at cell
(0,0) of layer "L" before the call and −1 after it — the call does not
leave the record's grids unchanged. -/
theorem putMap_mutates_record_cex :
    getLayer (putMapFull (mkBigMap 1 1 "b") sOne).2.layers "L" 0 0 = -1 ∧
    getLayer sOne.layers "L" 0 0 = 1 ∧ ((-1 : Int) ≠ 1) :=
  ⟨by rfl, by rfl, by decide⟩

/-- Claim C4, confirmed.  For every layer grid the record holds when the
overlay loop runs (its grids as negated/remapped by the tileset phase of
the same call), `putMap` overwrites exactly the composite sub-rectangle
`[y : y + height, x : x + width]` with the absolute-valued grid — so the
value there is that of the latest merged map, whatever the composite
held before — and when the layer is new to the composite the rest of the
freshly allocated grid is zero. -/
theorem putMap_overlay_rect (big : BigMap) (sMap : SmallMap) (nm : String)
    (g : Grid) (r c : Nat)
    (hnd : (keys (processTileSets sMap big.tileSets).1).Nodup)
    (hmem : (nm, g) ∈ (processTileSets sMap big.tileSets).1) :
    ((sMap.y ≤ r ∧ r < sMap.y + sMap.height ∧ sMap.x ≤ c ∧ c < sMap.x + sMap.width) →
      getLayer (putMap big sMap).layers nm r c = |g (r - sMap.y) (c - sMap.x)|) ∧
    (hasKey big.layers nm = false →
      ¬(sMap.y ≤ r ∧ r < sMap.y + sMap.height ∧ sMap.x ≤ c ∧ c < sMap.x + sMap.width) →
      getLayer (putMap big sMap).layers nm r c = 0) := by
  have hl : lookup (putMap big sMap).layers nm
      = some (placeGrid (getLayer big.layers nm) g
          sMap.y sMap.x sMap.height sMap.width) := by
    rw [putMap_layers_eq]
    exact overlayAll_lookup_mem _ big.layers _ _ _ _ nm g hnd hmem
  have hgl : getLayer (putMap big sMap).layers nm
      = placeGrid (getLayer big.layers nm) g sMap.y sMap.x sMap.height sMap.width :=
    getLayer_eq_of_lookup _ nm _ hl
  constructor
  · intro hin
    rw [hgl]
    simp only [placeGrid]
    rw [if_pos hin]
  · intro hkey hout
    rw [hgl]
    simp only [placeGrid]
    rw [if_neg hout]
    unfold getLayer
    rw [(hasKey_false_iff big.layers nm).mp hkey]
    rfl

/-- Witness for C4: merging `sOne` at offset (0,0) writes the
absolute-valued (negated) grid at cell (0,0). -/
theorem putMap_overlay_rect_witness :
    getLayer (putMap (mkBigMap 1 1 "b") sOne).layers "L" 0 0
      = |(negGrid (fun _ _ => 1)) 0 0| :=
  (putMap_overlay_rect (mkBigMap 1 1 "b") sOne "L" (negGrid (fun _ _ => 1)) 0 0
    (by decide) (List.Mem.head _)).1 (by decide)

/-- Claim C5, confirmed.  With remap parameters `iVal ≥ 1` the rule keys
`-(iVal+i)` are all negative, so `reMap` is the identity on a grid whose
cells are all non-negative; and a cell holding 0 is touched neither by
such a remap step nor by the negation step. -/
theorem reMap_nonneg_noop (A : Grid) (iVal fVal n : Int) (hi : 1 ≤ iVal) :
    ((∀ r c, 0 ≤ A r c) → ∀ r c, reMap A iVal fVal n r c = A r c) ∧
    (∀ r c, A r c = 0 → reMap A iVal fVal n r c = 0 ∧ negGrid A r c = 0) := by
  constructor
  · intro hA r c
    apply reMap_pointwise_id
    intro i
    have h1 := hA r c
    have h2 : (0 : Int) ≤ (i : Int) := Int.natCast_nonneg i
    omega
  · intro r c h0
    refine ⟨?_, ?_⟩
    · have he := reMap_pointwise_id A iVal fVal n r c (fun i => by
        have h2 : (0 : Int) ≤ (i : Int) := Int.natCast_nonneg i
        omega)
      rw [he, h0]
    · show -(A r c) = 0
      rw [h0]
      norm_num

/-- Witness for C5: a constant-7 grid is unchanged by
`reMap · 1 600 512`. -/
theorem reMap_nonneg_noop_witness :
    (1 : Int) ≤ 1 ∧ reMap (fun _ _ => (7 : Int)) 1 600 512 0 0 = 7 :=
  ⟨le_refl 1,
   (reMap_nonneg_noop (fun _ _ => (7 : Int)) 1 600 512 (le_refl 1)).1
     (fun _ _ => by norm_num) 0 0⟩

/-- Claim C8, confirmed.  A fresh 10×10 composite holds a "Collision"
layer that is 2 everywhere; after merging the 4×4 map `cMap` (offset
(2,3), all-zero Collision layer), the composite Collision layer is 0 on
rows 3–6, columns 2–5, and 2 elsewhere. -/
theorem collision_seed_example (nm : String) (r c : Nat)
    (hr : r < 10) (hc2 : c < 10) :
    getLayer (mkBigMap 10 10 nm).layers "Collision" r c = 2 ∧
    getLayer (putMap (mkBigMap 10 10 nm) cMap).layers "Collision" r c
      = (if 3 ≤ r ∧ r ≤ 6 ∧ 2 ≤ c ∧ c ≤ 5 then 0 else 2) := by
  have hmem : ("Collision", negGrid (fun _ _ => 0))
      ∈ (processTileSets cMap (mkBigMap 10 10 nm).tileSets).1 :=
    List.Mem.head _
  have hnd : (keys (processTileSets cMap (mkBigMap 10 10 nm).tileSets).1).Nodup := by
    show (["Collision"] : List String).Nodup
    decide
  have hl : lookup (putMap (mkBigMap 10 10 nm) cMap).layers "Collision"
      = some (placeGrid (getLayer (mkBigMap 10 10 nm).layers "Collision")
          (negGrid (fun _ _ => 0)) 3 2 4 4) := by
    rw [putMap_layers_eq]
    exact overlayAll_lookup_mem _ _ 3 2 4 4 "Collision" (negGrid (fun _ _ => 0))
      hnd hmem
  have hgl : getLayer (putMap (mkBigMap 10 10 nm) cMap).layers "Collision"
      = placeGrid (getLayer (mkBigMap 10 10 nm).layers "Collision")
          (negGrid (fun _ _ => 0)) 3 2 4 4 :=
    getLayer_eq_of_lookup _ "Collision" _ hl
  have hbase : ∀ r2 c2 : Nat,
      getLayer (mkBigMap 10 10 nm).layers "Collision" r2 c2 = 2 :=
    fun _ _ => rfl
  refine ⟨hbase r c, ?_⟩
  rw [hgl]
  simp only [placeGrid]
  by_cases hin : 3 ≤ r ∧ r < 3 + 4 ∧ 2 ≤ c ∧ c < 2 + 4
  · rw [if_pos hin, if_pos (show 3 ≤ r ∧ r ≤ 6 ∧ 2 ≤ c ∧ c ≤ 5 by omega)]
    show |(-(0 : Int))| = 0
    norm_num
  · rw [if_neg hin, if_neg (show ¬(3 ≤ r ∧ r ≤ 6 ∧ 2 ≤ c ∧ c ≤ 5) by omega)]
    exact hbase r c

/-- Witness for C8: the pre-seeded value at (0,0) and the merged values
at an interior cell of the zero block. -/
theorem collision_seed_example_witness :
    getLayer (mkBigMap 10 10 "big").layers "Collision" 0 0 = 2 ∧
    getLayer (putMap (mkBigMap 10 10 "big") cMap).layers "Collision" 4 3
      = (if 3 ≤ 4 ∧ 4 ≤ 6 ∧ 2 ≤ 3 ∧ 3 ≤ 5 then 0 else 2) :=
  ⟨(collision_seed_example "big" 0 0 (by decide) (by decide)).1,
   (collision_seed_example "big" 4 3 (by decide) (by decide)).2⟩

theorem NonNegLayers_putMap (big : BigMap) (sMap : SmallMap)
    (hbig : NonNegLayers big.layers) : NonNegLayers (putMap big sMap).layers := by
  rw [putMap_layers_eq]
  exact NonNegLayers_overlayAll _ big.layers _ _ _ _ hbig

theorem NonNegLayers_foldl_putMap (ms : List SmallMap) (big : BigMap)
    (hbig : NonNegLayers big.layers) :
    NonNegLayers ((ms.foldl putMap big).layers) := by
  induction ms generalizing big with
  | nil => exact hbig
  | cons s ms ih => exact ih (putMap big s) (NonNegLayers_putMap big s hbig)

/-- Claim C10, confirmed.  A fresh composite's layer grids are
non-negative everywhere; `putMap` preserves that (every written cell is
an absolute value or a zero fill); hence after any sequence of merges
into a fresh composite every cell of every layer grid is non-negative —
the negation marker never leaks into the composite. -/
theorem composite_nonneg (w h : Nat) (nm : String) (big : BigMap)
    (sMap : SmallMap) (hbig : NonNegLayers big.layers) :
    NonNegLayers (mkBigMap w h nm).layers ∧
    NonNegLayers (putMap big sMap).layers ∧
    (∀ ms : List SmallMap, NonNegLayers ((ms.foldl putMap (mkBigMap w h nm)).layers)) := by
  refine ⟨NonNegLayers_mkBigMap w h nm, NonNegLayers_putMap big sMap hbig, ?_⟩
  intro ms
  exact NonNegLayers_foldl_putMap ms (mkBigMap w h nm) (NonNegLayers_mkBigMap w h nm)

/-- Witness for C10: the composite after merging `sOne` into a fresh
2×2 big map has non-negative grids. -/
theorem composite_nonneg_witness :
    NonNegLayers (putMap (mkBigMap 2 2 "x") sOne).layers :=
  (composite_nonneg 2 2 "x" (mkBigMap 2 2 "x") sOne
    (NonNegLayers_mkBigMap 2 2 "x")).2.1

/-- Uniformity of the rows accepted by the grid decoder: every accepted
row has the column count of the first data line. -/
theorem decodeCSV_ok_uniform (data : String) (rows : List (List Int))
    (h : decodeCSV data = Except.ok rows) :
    ∀ r1 ∈ rows, ∀ r2 ∈ rows, r1.length = r2.length := by
  simp only [decodeCSV] at h
  split at h
  · exact Except.noConfusion h
  · split at h
    · rename_i hall
      injection h with h2
      subst h2
      intro r1 h1 r2 h2
      have ha := List.all_eq_true.mp hall
      have e1 := ha r1 h1
      have e2 := ha r2 h2
      simp at e1 e2
      omega
    · exact Except.noConfusion h

/-- Claim C6, corrected.  The loader aborts on a layer whose decoded
rows are ragged — `numpy.genfromtxt` rejects any line whose field count
differs from the first line's — so every accepted layer has rows of one
uniform length.  But the decoder never consults the map's declared
width: a layer whose rows are uniformly of the wrong width is accepted
(see the counterexample). -/
theorem handleLayers_rows_uniform (raw : RawMap)
    (out : List (String × List (List Int)))
    (h : handleLayers raw = Except.ok out) :
    ∀ p ∈ out, ∀ r1 ∈ p.2, ∀ r2 ∈ p.2, r1.length = r2.length := by
  unfold handleLayers at h
  obtain ⟨w0, h0, ls⟩ := raw
  dsimp only at h
  induction ls generalizing out with
  | nil =>
    injection h with h2
    subst h2
    intro p hp
    cases hp
  | cons q qs ih =>
    rw [List.foldr_cons] at h
    cases hd : decodeCSV q.2 with
    | error e =>
      rw [hd] at h
      exact Except.noConfusion h
    | ok rows =>
      cases hr : qs.foldr (fun p acc =>
          match decodeCSV p.2, acc with
          | Except.ok rows, Except.ok rest => Except.ok ((p.1, rows) :: rest)
          | Except.error e, _ => Except.error e
          | Except.ok _, Except.error e => Except.error e)
          (Except.ok []) with
      | error e =>
        rw [hd, hr] at h
        exact Except.noConfusion h
      | ok rest =>
        rw [hd, hr] at h
        injection h with h2
        subst h2
        intro p hp
        rcases List.mem_cons.mp hp with he | hp2
        · rw [he]
          exact decodeCSV_ok_uniform q.2 rows hd
        · exact ih rest hr p hp2

/-- Witness for C6 (amended): the two-layer map with a well-formed body
decodes, and the theorem yields uniformity of its rows. -/
theorem handleLayers_rows_uniform_witness :
    handleLayers rawCex = Except.ok [("L", [[1, 2], [3, 4]])] ∧
    ([1, 2] : List Int).length = ([3, 4] : List Int).length :=
  ⟨by rfl,
   handleLayers_rows_uniform rawCex [("L", [[1, 2], [3, 4]])] (by rfl)
     ("L", [[1, 2], [3, 4]]) (List.Mem.head _)
     [1, 2] (List.Mem.head _) [3, 4] (by decide)⟩

/-- Counterexample for C6 as stated: `rawCex` declares width 3, yet its
layer body of uniform 2-cell rows is accepted by the decoder — the
decoder never compares row length to the declared width. -/
theorem handleLayers_no_width_check_cex :
    handleLayers rawCex = Except.ok [("L", [[1, 2], [3, 4]])] ∧
    rawCex.width = 3 ∧
    ([1, 2] : List Int).length = 2 ∧ (2 : Nat) ≠ 3 :=
  ⟨by rfl, by rfl, by rfl, by decide⟩

/-- Claim C9, confirmed.  For an object whose `x`/`y` attributes parse
as integers, loading at placement offset `(x, y)` (tile units) rewrites
them to exactly `originalX + 32*x` and `originalY + 32*y`, and every
other attribute is carried through unchanged. -/
theorem handleObject_shifts (x y ix iy : Int) (o : Obj) (sx sy : String)
    (hx : objGet o "x" = some sx) (hxi : parseIntCh (trimCh sx.data) = some ix)
    (hy : objGet o "y" = some sy) (hyi : parseIntCh (trimCh sy.data) = some iy) :
    ∃ o2, handleObject x y o = some o2 ∧
      objGet o2 "x" = some (intToStr (ix + 32 * x)) ∧
      objGet o2 "y" = some (intToStr (iy + 32 * y)) ∧
      ∀ k, k ≠ "x" → k ≠ "y" → objGet o2 k = objGet o k := by
  unfold handleObject
  rw [hx]
  simp only [Option.some_bind]
  rw [hxi]
  dsimp only
  have hy1 : objGet (objSet o "x" (intToStr (ix + 32 * x))) "y" = some sy := by
    show lookup (dictInsert o.attrib "x" (intToStr (ix + 32 * x))) "y" = some sy
    rw [dictInsert_lookup_ne o.attrib "x" _ "y" (by decide)]
    exact hy
  rw [hy1]
  simp only [Option.some_bind]
  rw [hyi]
  dsimp only
  refine ⟨_, rfl, ?_, ?_, ?_⟩
  · show lookup (dictInsert (dictInsert o.attrib "x" (intToStr (ix + 32 * x)))
      "y" (intToStr (iy + 32 * y))) "x" = _
    rw [dictInsert_lookup_ne _ "y" _ "x" (by decide)]
    exact dictInsert_lookup_self o.attrib "x" _
  · show lookup (dictInsert (dictInsert o.attrib "x" (intToStr (ix + 32 * x)))
      "y" (intToStr (iy + 32 * y))) "y" = _
    exact dictInsert_lookup_self _ "y" _
  · intro k hkx hky
    show lookup (dictInsert (dictInsert o.attrib "x" (intToStr (ix + 32 * x)))
      "y" (intToStr (iy + 32 * y))) k = objGet o k
    rw [dictInsert_lookup_ne _ "y" _ k hky]
    exact dictInsert_lookup_ne o.attrib "x" _ k hkx

/-- Witness for C9: the object with x="5", y="6" at offset (2,3) ends
with x="69", y="102" and untouched "name". -/
theorem handleObject_shifts_witness :
    ∃ o2, handleObject 2 3 objEx = some o2 ∧
      objGet o2 "x" = some (intToStr (5 + 32 * 2)) ∧
      objGet o2 "y" = some (intToStr (6 + 32 * 3)) ∧
      ∀ k, k ≠ "x" → k ≠ "y" → objGet o2 k = objGet objEx k :=
  handleObject_shifts 2 3 5 6 objEx "5" "6" (by rfl) (by rfl) (by rfl) (by rfl)
